import Mathlib

/-!
Shallow embedding of the insider-form4-scanner pipeline (src/scanner.py)
and verification of its specified properties.

Machine numerics (`float` in the source) are modelled as `ℚ`; XML documents
(`xml.etree.ElementTree`) are modelled as a tree of tagged elements; Python
exceptions (`AttributeError` from calling a method on `None`, `ValueError`
from `float` on an unparsable string) are modelled with `Except String`.
-/

deriving instance DecidableEq for Except

namespace Scanner

/-- One XML element: a tag, optional text content, and child elements.
Models the `xml.etree.ElementTree.Element` values that `parse_form4` walks. -/
structure XmlElem where
  tag : String
  text : Option String
  children : List XmlElem

/-- `e.find(t)`: first direct child with the given tag, or `None`. -/
def findChild (e : XmlElem) (t : String) : Option XmlElem :=
  e.children.find? (fun c => c.tag == t)

/-- `e.findall(t)`: all direct children with the given tag, in document order. -/
def findAll (e : XmlElem) (t : String) : List XmlElem :=
  e.children.filter (fun c => c.tag == t)

/-- `e.findtext(t, d)`: text of the first child tagged `t`; the default `d`
when no such child exists; the empty string when the child has no text. -/
def findtextD (e : XmlElem) (t : String) (d : String) : String :=
  match findChild e t with
  | none => d
  | some c => c.text.getD ""

/-- `e.findtext(t)` with no default: `None` when no such child exists,
otherwise the child's text (empty string when the child has no text). -/
def findtextOpt (e : XmlElem) (t : String) : Option String :=
  match findChild e t with
  | none => none
  | some c => some (c.text.getD "")

/-- Value of a decimal digit character, `none` for a non-digit. -/
def charDigit (c : Char) : Option Nat :=
  if c.isDigit then some (c.toNat - 48) else none

/-- Read a digit string as a natural number, empty list giving 0;
`none` as soon as a non-digit appears. -/
def digitsValD (cs : List Char) : Option Nat :=
  cs.foldl
    (fun acc c =>
      match acc, charDigit c with
      | some a, some d => some (a * 10 + d)
      | _, _ => none)
    (some 0)

/-- Unsigned part of Python `float(s)` on plain decimal literals:
digits, optionally with a decimal point (`"12"`, `"12.5"`, `"12."`, `".5"`).
`none` models `ValueError`. -/
def parseUnsigned (cs : List Char) : Option ℚ :=
  let ip := cs.takeWhile Char.isDigit
  let rest := cs.dropWhile Char.isDigit
  match rest with
  | [] =>
    if ip.isEmpty then none
    else (digitsValD ip).map (fun n => (n : ℚ))
  | '.' :: fp =>
    if ip.isEmpty && fp.isEmpty then none
    else
      match digitsValD fp with
      | none => none
      | some b => some (((digitsValD ip).getD 0 : ℚ) + (b : ℚ) / (10 : ℚ) ^ fp.length)
  | _ => none

/-- Strip leading and trailing whitespace from a character list. -/
def trimChars (cs : List Char) : List Char :=
  ((cs.dropWhile Char.isWhitespace).reverse.dropWhile Char.isWhitespace).reverse

/-- Python `float(s)` on the plain decimal literals used in Form 4 numeric
fields: optional surrounding whitespace, optional sign, decimal digits with an
optional fractional part. `none` models `ValueError`. -/
def pyFloat (s : String) : Option ℚ :=
  match trimChars s.toList with
  | [] => none
  | '-' :: cs => (parseUnsigned cs).map (fun q => -q)
  | '+' :: cs => parseUnsigned cs
  | cs => parseUnsigned cs

/-- Round to the nearest integer, ties to the even integer
(the rounding Python's `round` uses). -/
def roundHalfEven (q : ℚ) : ℤ :=
  let f := Int.floor q
  let r := q - (f : ℚ)
  if r < 1 / 2 then f
  else if 1 / 2 < r then f + 1
  else if f % 2 = 0 then f else f + 1

/-- Python `round(q, nd)`: round to `nd` decimal places, ties to even. -/
def pyRound (q : ℚ) (nd : ℕ) : ℚ :=
  (roundHalfEven (q * (10 : ℚ) ^ nd) : ℚ) / (10 : ℚ) ^ nd

/-- The record `parse_form4` returns on success (the dict literal at the end
of the function). -/
structure Form4Record where
  ticker : String
  owner : String
  role : String
  total : ℚ
  date : String
deriving DecidableEq

/-- Body of the per-transaction loop in `parse_form4` for one
`nonDerivativeTransaction` element `tx`, threading the `(total, date)`
accumulator. A `none` from `find` followed by attribute access raises
`AttributeError`; `float` on an unparsable string raises `ValueError`. -/
def procTx (acc : ℚ × String) (tx : XmlElem) : Except String (ℚ × String) :=
  match findChild tx "transactionCoding" with
  | none => .error "AttributeError"
  | some coding =>
    if findtextD coding "transactionCode" "" ≠ "P" then .ok acc
    else
      match findChild tx "transactionDate" with
      | none => .error "AttributeError"
      | some td =>
        let date := findtextD td "value" ""
        match findChild tx "transactionAmounts" with
        | none => .error "AttributeError"
        | some amounts =>
          match findChild amounts "transactionShares" with
          | none => .error "AttributeError"
          | some sharesEl =>
            match pyFloat (findtextD sharesEl "value" "0") with
            | none => .error "ValueError"
            | some shares =>
              match findChild amounts "transactionPricePerShare" with
              | none => .error "AttributeError"
              | some priceEl =>
                let pstr := findtextD priceEl "value" "0"
                match (if pstr = "" then some (0 : ℚ) else pyFloat pstr) with
                | none => .error "ValueError"
                | some price => .ok (acc.1 + shares * price, date)

/-- The `for tx in nd.findall("nonDerivativeTransaction")` loop. -/
def procTxs : List XmlElem → (ℚ × String) → Except String (ℚ × String)
  | [], acc => .ok acc
  | tx :: rest, acc =>
    match procTx acc tx with
    | .error e => .error e
    | .ok acc2 => procTxs rest acc2

/-- `parse_form4(xml_bytes)` from src/scanner.py, on the already-parsed
element tree `root`. Returns `.ok none` for "no transaction",
`.ok (some rec)` for a qualifying record, `.error` when the Python code
would raise. -/
def parse_form4 (root : XmlElem) : Except String (Option Form4Record) :=
  let ticker :=
    match findChild root "issuer" with
    | some issuer => findtextD issuer "issuerTradingSymbol" ""
    | none => ""
  match findChild root "reportingOwner" with
  | none => .error "AttributeError"
  | some owner =>
    match findChild owner "reportingOwnerId" with
    | none => .error "AttributeError"
    | some oid =>
      let owner_name := findtextD oid "rptOwnerName" "Unknown"
      let role :=
        match findChild owner "reportingOwnerRelationship" with
        | none => "Insider"
        | some rel =>
          match findtextOpt rel "officerTitle" with
          | none => "Insider"
          | some title => if title = "" then "Insider" else title
      match findChild root "nonDerivativeTable" with
      | none => .ok none
      | some nd =>
        match procTxs (findAll nd "nonDerivativeTransaction") (0, "") with
        | .error e => .error e
        | .ok acc =>
          if acc.1 < 15000 then .ok none
          else .ok (some ⟨ticker, owner_name, role, pyRound acc.1 2, acc.2⟩)

/-- Dollar value `shares × price` of one transaction line when it carries
purchase code `P`; `none` for non-`P` lines or structurally broken lines. -/
def txPValue (tx : XmlElem) : Option ℚ :=
  match findChild tx "transactionCoding" with
  | none => none
  | some coding =>
    if findtextD coding "transactionCode" "" = "P" then
      match findChild tx "transactionAmounts" with
      | none => none
      | some amounts =>
        match findChild amounts "transactionShares", findChild amounts "transactionPricePerShare" with
        | some sharesEl, some priceEl =>
          let pstr := findtextD priceEl "value" "0"
          match pyFloat (findtextD sharesEl "value" "0"),
                (if pstr = "" then some (0 : ℚ) else pyFloat pstr) with
          | some sh, some pr => some (sh * pr)
          | _, _ => none
        | _, _ => none
    else none

/-- Date string of one transaction line when it carries purchase code `P`;
`none` for non-`P` lines or lines without a `transactionDate` element. -/
def txPDate (tx : XmlElem) : Option String :=
  match findChild tx "transactionCoding" with
  | none => none
  | some coding =>
    if findtextD coding "transactionCode" "" = "P" then
      match findChild tx "transactionDate" with
      | none => none
      | some td => some (findtextD td "value" "")
    else none

/-- Aggregate dollar value of a filing document: the sum of
`shares × price` over its code-`P` transaction lines (0 when the
`nonDerivativeTable` section is absent). -/
def dollar_value (root : XmlElem) : ℚ :=
  match findChild root "nonDerivativeTable" with
  | none => 0
  | some nd => ((findAll nd "nonDerivativeTransaction").filterMap txPValue).sum

/-- Dates of the code-`P` transaction lines of a filing document,
in document order. -/
def pDates (root : XmlElem) : List String :=
  match findChild root "nonDerivativeTable" with
  | none => []
  | some nd => (findAll nd "nonDerivativeTransaction").filterMap txPDate

/-- Text leaf element. -/
def leaf (t v : String) : XmlElem := ⟨t, some v, []⟩

/-- Interior element. -/
def node (t : String) (cs : List XmlElem) : XmlElem := ⟨t, none, cs⟩

/-- A `nonDerivativeTransaction` element with the given code, date,
share count and price strings. -/
def txLine (code date shares price : String) : XmlElem :=
  node "nonDerivativeTransaction"
    [ node "transactionCoding" [leaf "transactionCode" code],
      node "transactionDate" [leaf "value" date],
      node "transactionAmounts"
        [ node "transactionShares" [leaf "value" shares],
          node "transactionPricePerShare" [leaf "value" price] ] ]

/-- A complete Form 4 document with issuer, reporting owner and the given
transaction lines. -/
def form4Doc (tkr ownerName : String) (txs : List XmlElem) : XmlElem :=
  node "xml"
    [ node "issuer" [leaf "issuerTradingSymbol" tkr],
      node "reportingOwner" [node "reportingOwnerId" [leaf "rptOwnerName" ownerName]],
      node "nonDerivativeTable" txs ]

/-! ### Cluster aggregation (the grouping loop in `main`, src/scanner.py) -/

/-- One step of `grouped[h["ticker"]].append(h)` on a `defaultdict(list)`
kept as an insertion-ordered association list: append to the existing
entry for the ticker, or add a new entry at the end. -/
def addHit : List (String × List Form4Record) → Form4Record → List (String × List Form4Record)
  | [], h => [(h.ticker, [h])]
  | p :: rest, h =>
    if p.1 = h.ticker then (p.1, p.2 ++ [h]) :: rest
    else p :: addHit rest h

/-- The grouping loop `for h in hits: grouped[h["ticker"]].append(h)`. -/
def groupHits (hits : List Form4Record) : List (String × List Form4Record) :=
  hits.foldl addHit []

/-- Tickers of `hits` in first-seen order, each exactly once
(the key order of a Python dict built by the grouping loop). -/
def firstSeenTickers (hits : List Form4Record) : List String :=
  hits.foldl (fun ks h => if h.ticker ∈ ks then ks else ks ++ [h.ticker]) []

/-- Members stored under ticker `t` in a grouping (`grouped[t]`):
the list of the first entry keyed `t`, `[]` when `t` has no entry. -/
def membersOf (t : String) : List (String × List Form4Record) → List Form4Record
  | [] => []
  | p :: rest => if p.1 = t then p.2 else membersOf t rest

/-! ### Analyst signals (`fetch_analyst_upgrades`, src/scanner.py) -/

/-- One raw item of the decoded analyst price-target feed: the fields
`fetch_analyst_upgrades` reads, each possibly absent (`item.get`). -/
structure RawRevision where
  priceTargetPrior : Option ℚ
  priceTarget : Option ℚ
  symbol : Option String
  analystCompany : Option String
deriving DecidableEq

/-- One retained analyst signal (the dict appended to `results`). -/
structure AnalystSignal where
  symbol : Option String
  analyst : Option String
  old : ℚ
  new : ℚ
  pct : ℚ
deriving DecidableEq

/-- Body of the filtering loop in `fetch_analyst_upgrades`: `none` when the
item is skipped (`continue`), otherwise the appended signal. Python's
`not old` / `not new` are true for a missing field and for the value 0. -/
def toSignal (it : RawRevision) : Option AnalystSignal :=
  match it.priceTargetPrior, it.priceTarget with
  | some o, some n =>
    if o = 0 ∨ n = 0 ∨ n ≤ o then none
    else if (n - o) / o < 7 / 100 then none
    else some ⟨it.symbol, it.analystCompany, o, n, pyRound ((n - o) / o * 100) 1⟩
  | _, _ => none

/-- `fetch_analyst_upgrades()` from src/scanner.py. `apiKey` models
`os.getenv("FMP_API_KEY")` (absent, or a possibly-empty string); `feed`
models the fetched-and-JSON-decoded item list, `none` when `http_get` or
`json.loads` raises (the `except: return []` path). -/
def fetch_analyst_upgrades (apiKey : Option String) (feed : Option (List RawRevision)) :
    List AnalystSignal :=
  match apiKey with
  | none => []
  | some k =>
    if k = "" then []
    else
      match feed with
      | none => []
      | some data => (data.filterMap toSignal).take 5

/-! ### Sector inference and the meta-signal sector line -/

/-- `infer_sector(ticker)` from src/scanner.py. -/
def infer_sector (ticker : String) : String :=
  if ticker = "" then "Unknown"
  else
    let t := ticker.toList.map Char.toUpper
    if ["XOM", "CVX", "BP", "COP"].any (fun p => p.toList.isPrefixOf t) then "Energy"
    else if ["MRNA", "BIIB", "PFE", "JNJ"].any (fun p => p.toList.isPrefixOf t) then
      "Biotech / Pharma"
    else if ["AAPL", "MSFT", "NVDA", "AMD", "GOOG"].any (fun p => p.toList.isPrefixOf t) then
      "Technology"
    else if ["JPM", "BAC", "GS", "WFC"].any (fun p => p.toList.isPrefixOf t) then "Financials"
    else "Other"

/-- `max(sector_counts, key=sector_counts.get) if sector_counts else None`:
over the insertion-ordered count list, the first key whose count is
strictly greater than every earlier maximum (Python's `max` keeps the
first of equally-counted keys). -/
def top_sector (sc : List (String × Nat)) : Option String :=
  match sc with
  | [] => none
  | p :: rest => some ((rest.foldl (fun b q => if b.2 < q.2 then q else b) p).1)

/-- The dispersed-activity line of `meta_signal_block`. -/
def dispersedLine : String := "Insider activity is dispersed across sectors."

/-- The concentration line of `meta_signal_block` for sector `t`. -/
def concentratedLine (t : String) : String :=
  "Most insider activity is concentrated in " ++ t ++ "."

/-- The `sector_line` selection in `meta_signal_block` (src/scanner.py):
the concentration line when the dominant bucket exists, is a non-empty
string, and is not `"Other"`; the dispersed line otherwise. -/
def sector_line (sc : List (String × Nat)) : String :=
  match top_sector sc with
  | none => dispersedLine
  | some t => if t ≠ "" ∧ t ≠ "Other" then concentratedLine t else dispersedLine

/-! ### Quiet-streak tracker and conviction score (spec-modelled) -/

/-- Modelled from the spec: the persisted quiet-streak state read at run
start (§4.6 Quiet-Streak State Tracker, a component absent from src/):
the state file may be absent (first run), unreadable/corrupt, or hold an
integer. -/
inductive StreakFile where
  | absent
  | corrupt
  | stored (n : Nat)
deriving DecidableEq

/-- Modelled from the spec: reading the prior persisted integer, defaulting
to 0 when no prior state exists or it is unreadable/corrupt. -/
def readStreak : StreakFile → Nat
  | .absent => 0
  | .corrupt => 0
  | .stored n => n

/-- Modelled from the spec: `update(had_activity) -> new_streak_count` of the
Quiet-Streak State Tracker (absent from src/). Returns the new count and the
state written back: 0 on activity, prior + 1 otherwise. -/
def quietStreakUpdate (st : StreakFile) (had_activity : Bool) : Nat × StreakFile :=
  let v := if had_activity then 0 else readStreak st + 1
  (v, .stored v)

/-- Clamp `x` into `[lo, hi]`. -/
def clampQ (lo hi x : ℚ) : ℚ := max lo (min hi x)

/-- Modelled from the spec: the tunable constants of the Signal Fusion &
Scoring Engine (§4.5, a component absent from src/): the overall maximum
and the individual caps of the three sub-scores, plus the fixed analyst
corroboration bonus. -/
structure ScoreParams where
  max_score : ℚ
  breadth_cap : ℚ
  dollar_cap : ℚ
  seniority_cap : ℚ
  analyst_bonus : ℚ
deriving DecidableEq

/-- Modelled from the spec: `score(cluster, has_analyst_signal)` of the
Signal Fusion & Scoring Engine (absent from src/): each sub-score clamped
individually, then the sum (plus the analyst bonus when corroborated)
clamped again to `[0, max_score]` — clamp-then-sum-then-clamp. -/
def conviction_score (p : ScoreParams) (breadth dollars seniority : ℚ)
    (hasAnalyst : Bool) : ℚ :=
  clampQ 0 p.max_score
    (clampQ 0 p.breadth_cap breadth + clampQ 0 p.dollar_cap dollars
      + clampQ 0 p.seniority_cap seniority
      + (if hasAnalyst then p.analyst_bonus else 0))

/-! ### Concrete filing documents used as witnesses and counterexamples -/

/-- A document whose single code-`P` line is worth exactly $15,000. -/
def boundaryDoc : XmlElem :=
  form4Doc "ABCD" "Jane Doe" [txLine "P" "2024-03-01" "300" "50"]

/-- A document whose single code-`P` line has 0 shares. -/
def zeroSharesDoc : XmlElem :=
  form4Doc "ABCD" "Jane Doe" [txLine "P" "2024-03-01" "0" "50"]

/-- A document with two qualifying code-`P` lines whose later (maximal)
date comes first in document order. -/
def twoDateDoc : XmlElem :=
  form4Doc "ABCD" "Jane Doe"
    [txLine "P" "2024-05-02" "400" "50", txLine "P" "2024-04-01" "400" "50"]

/-- A document lacking the `reportingOwner` section but carrying a
qualifying code-`P` line. -/
def noOwnerDoc : XmlElem :=
  node "xml"
    [ node "issuer" [leaf "issuerTradingSymbol" "ABCD"],
      node "nonDerivativeTable" [txLine "P" "2024-03-01" "1000" "50"] ]

/-- A document whose share count is the unparsable string `"N/A"`. -/
def badNumberDoc : XmlElem :=
  form4Doc "ABCD" "Jane Doe" [txLine "P" "2024-03-01" "N/A" "50"]

/-- A document whose `transactionShares` element has no `value` child
(the `findtext` default `"0"` applies). -/
def missingValueDoc : XmlElem :=
  form4Doc "ABCD" "Jane Doe"
    [ node "nonDerivativeTransaction"
        [ node "transactionCoding" [leaf "transactionCode" "P"],
          node "transactionDate" [leaf "value" "2024-03-01"],
          node "transactionAmounts"
            [ node "transactionShares" [],
              node "transactionPricePerShare" [leaf "value" "50"] ] ] ]

/-- A document lacking the `issuer` section but carrying a qualifying
code-`P` line under a complete owner block. -/
def noIssuerDoc : XmlElem :=
  node "xml"
    [ node "reportingOwner" [node "reportingOwnerId" [leaf "rptOwnerName" "Jane Doe"]],
      node "nonDerivativeTable" [txLine "P" "2024-03-01" "1000" "50"] ]

/-- The owner element of `ownerOnlyDoc`. -/
def ownerElem : XmlElem :=
  node "reportingOwner" [node "reportingOwnerId" [leaf "rptOwnerName" "Jane Doe"]]

/-- A document with owner blocks but no `nonDerivativeTable`. -/
def ownerOnlyDoc : XmlElem :=
  node "xml" [node "issuer" [leaf "issuerTradingSymbol" "ABCD"], ownerElem]

/-- A qualifying record whose ticker is the empty string. -/
def emptyTickerRec : Form4Record :=
  ⟨"", "Bob Roe", "Insider", 20000, "2024-01-01"⟩

/-- A document with one code-`P` line worth $50,500. -/
def highValueDoc : XmlElem :=
  form4Doc "ABCD" "Jane Doe" [txLine "P" "2024-03-01" "1000" "50.5"]

attribute [local semireducible] Rat.add Rat.mul Rat.inv Rat.sub

/-! ### The claims -/

/-- C2: Quiet-streak transition law: `update(had_activity=true)` writes and
returns 0 for every prior state; `update(had_activity=false)` writes and
returns prior + 1; an absent or corrupt prior state is read as 0 and the
update still succeeds. -/
theorem quiet_streak_transition :
    (∀ st, quietStreakUpdate st true = (0, .stored 0))
    ∧ (∀ n, quietStreakUpdate (.stored n) false = (n + 1, .stored (n + 1)))
    ∧ quietStreakUpdate .absent false = (1, .stored 1)
    ∧ quietStreakUpdate .corrupt false = (1, .stored 1) :=
  ⟨fun _ => rfl, fun _ => rfl, rfl, rfl⟩

/-- C3: Conviction-score bounding: for every parameter profile with a
non-negative overall maximum, every cluster sub-score input and every
analyst-corroboration state, the clamp-then-sum-then-clamp score lies in
`[0, max_score]`, and re-scoring identical inputs yields the identical
score. -/
theorem conviction_score_bounded (p : ScoreParams) (hmax : 0 ≤ p.max_score)
    (breadth dollars seniority : ℚ) (hasAnalyst : Bool) :
    0 ≤ conviction_score p breadth dollars seniority hasAnalyst
    ∧ conviction_score p breadth dollars seniority hasAnalyst ≤ p.max_score
    ∧ conviction_score p breadth dollars seniority hasAnalyst
        = conviction_score p breadth dollars seniority hasAnalyst := by
  refine ⟨?_, ?_, rfl⟩
  · exact le_max_left _ _
  · exact max_le hmax (min_le_left _ _)

/-- Witness for `conviction_score_bounded` at a concrete `[0, 10]` profile. -/
theorem conviction_score_bounded_witness :
    0 ≤ conviction_score ⟨10, 4, 4, 2, 1⟩ 3 5 2 true
    ∧ conviction_score ⟨10, 4, 4, 2, 1⟩ 3 5 2 true ≤ (10 : ℚ)
    ∧ conviction_score ⟨10, 4, 4, 2, 1⟩ 3 5 2 true
        = conviction_score ⟨10, 4, 4, 2, 1⟩ 3 5 2 true :=
  conviction_score_bounded ⟨10, 4, 4, 2, 1⟩ (by norm_num) 3 5 2 true

/-- C7: Analyst-signal filter and cap: an upstream revision is retained iff
its prior target is present and nonzero, its new target is present and
strictly exceeds the prior, and the percentage increase is at least the
7% minimum-raise threshold (equality accepted); the returned sequence
never exceeds 5 signals. -/
theorem analyst_filter_and_cap :
    (∀ it : RawRevision, (toSignal it).isSome ↔
      ∃ o n, it.priceTargetPrior = some o ∧ o ≠ 0 ∧ it.priceTarget = some n ∧ o < n ∧
        7 / 100 ≤ (n - o) / o)
    ∧ ∀ apiKey feed, (fetch_analyst_upgrades apiKey feed).length ≤ 5 := by
  constructor
  · intro it
    obtain ⟨po, pt, sym, ac⟩ := it
    cases po with
    | none => simp [toSignal]
    | some o =>
      cases pt with
      | none => simp [toSignal]
      | some n =>
        simp only [toSignal, Option.some.injEq]
        by_cases h0 : o = 0 ∨ n = 0 ∨ n ≤ o
        · rw [if_pos h0]
          simp only [Option.isSome_none, Bool.false_eq_true, false_iff]
          rintro ⟨o', n', ho', ho'0, hn', hlt, hpct⟩
          obtain rfl : o = o' := ho'
          obtain rfl : n = n' := hn'
          rcases h0 with h | h | h
          · exact ho'0 h
          · rw [h, zero_sub, neg_div, div_self ho'0] at hpct
            norm_num at hpct
          · exact absurd hlt (not_lt.mpr h)
        · rw [if_neg h0]
          push_neg at h0
          by_cases hpct : (n - o) / o < 7 / 100
          · rw [if_pos hpct]
            simp only [Option.isSome_none, Bool.false_eq_true, false_iff]
            rintro ⟨o', n', ho', _, hn', _, hge⟩
            obtain rfl : o = o' := ho'
            obtain rfl : n = n' := hn'
            exact absurd hge (not_le.mpr hpct)
          · rw [if_neg hpct]
            simp only [Option.isSome_some, true_iff]
            exact ⟨o, n, rfl, h0.1, rfl, h0.2.2, not_lt.mp hpct⟩
  · intro apiKey feed
    cases apiKey with
    | none => simp [fetch_analyst_upgrades]
    | some k =>
      simp only [fetch_analyst_upgrades]
      split
      · simp
      · cases feed with
        | none => simp
        | some data => simp

/-- C8: Analyst-feed failure recovery: with no API key configured, with an
empty API key, or when fetching/decoding the feed fails, the function
returns the empty sequence (and, being total, the failure never
propagates). -/
theorem analyst_feed_failure_empty :
    (∀ feed, fetch_analyst_upgrades none feed = [])
    ∧ (∀ feed, fetch_analyst_upgrades (some "") feed = [])
    ∧ (∀ apiKey, fetch_analyst_upgrades apiKey none = []) := by
  refine ⟨fun _ => rfl, fun _ => rfl, fun apiKey => ?_⟩
  cases apiKey with
  | none => rfl
  | some k =>
    simp only [fetch_analyst_upgrades]
    split <;> rfl

/-- C9: Dominant-sector determination: when the dominant count bucket is
`"Other"` the dispersed-activity line is emitted instead of naming it;
a dominant bucket that is any other (non-empty) sector name is named in
the concentration line; unknown tickers map to the `"Other"` /
`"Unknown"` buckets. -/
theorem dominant_sector_line (sc : List (String × Nat)) :
    (top_sector sc = some "Other" → sector_line sc = dispersedLine)
    ∧ (∀ t, top_sector sc = some t → t ≠ "" → t ≠ "Other" →
        sector_line sc = concentratedLine t)
    ∧ infer_sector "" = "Unknown"
    ∧ infer_sector "ZZZZ" = "Other" := by
  refine ⟨?_, ?_, rfl, by decide⟩
  · intro h
    simp [sector_line, h]
  · intro t h h1 h2
    simp [sector_line, h, h1, h2]

/-- Witness for `dominant_sector_line`: an `"Other"`-dominated histogram
yields the dispersed line; an `"Energy"`-dominated one names `"Energy"`. -/
theorem dominant_sector_line_witness :
    sector_line [("Other", 5), ("Energy", 3)] = dispersedLine
    ∧ sector_line [("Energy", 2), ("Other", 1)] = concentratedLine "Energy" :=
  ⟨(dominant_sector_line [("Other", 5), ("Energy", 3)]).1 (by rfl),
   (dominant_sector_line [("Energy", 2), ("Other", 1)]).2.1 "Energy" (by rfl)
     (by decide) (by decide)⟩

/-! ### Characterization of the `parse_form4` transaction loop -/

theorem getLastD_cons (a d : String) (l : List String) :
    ((a :: l).getLast?).getD d = (l.getLast?).getD a := by
  induction l generalizing a d with
  | nil => rfl
  | cons b m ih => rw [List.getLast?_cons_cons, ih b d, ih b a]

theorem procTx_ok {acc acc2 : ℚ × String} {tx : XmlElem}
    (h : procTx acc tx = .ok acc2) :
    (txPValue tx = none ∧ txPDate tx = none ∧ acc2 = acc) ∨
    ∃ v dt, txPValue tx = some v ∧ txPDate tx = some dt ∧ acc2 = (acc.1 + v, dt) := by
  unfold procTx at h
  repeat' split at h
  all_goals simp_all [txPValue, txPDate]
  split at h <;> simp_all

theorem procTxs_ok (l : List XmlElem) : ∀ (q : ℚ) (s : String) (t : ℚ) (d : String),
    procTxs l (q, s) = .ok (t, d) →
    t = q + (l.filterMap txPValue).sum
      ∧ d = ((l.filterMap txPDate).getLast?).getD s := by
  induction l with
  | nil =>
    intro q s t d h
    simp only [procTxs, Except.ok.injEq, Prod.mk.injEq] at h
    obtain ⟨rfl, rfl⟩ := h
    simp
  | cons tx rest ih =>
    intro q s t d h
    simp only [procTxs] at h
    cases hpt : procTx (q, s) tx with
    | error e => rw [hpt] at h; exact absurd h (by simp)
    | ok acc2 =>
      rw [hpt] at h
      simp only at h
      rcases procTx_ok hpt with ⟨hv, hd, hacc⟩ | ⟨v, dt, hv, hd, hacc⟩
      · subst hacc
        obtain ⟨ht, hdt⟩ := ih q s t d h
        rw [List.filterMap_cons_none hv, List.filterMap_cons_none hd]
        exact ⟨ht, hdt⟩
      · subst hacc
        obtain ⟨ht, hdt⟩ := ih _ _ t d h
        refine ⟨?_, ?_⟩
        · rw [List.filterMap_cons_some hv, List.sum_cons, ht]
          ring
        · rw [List.filterMap_cons_some hd, getLastD_cons, hdt]

/-- C1: Materiality threshold boundary: a document for which `parse_form4`
does not raise yields a qualifying record iff its aggregate code-`P`
dollar value is at least the $15,000 threshold; in particular a value of
exactly $15,000 is accepted and a value of 0 (zero shares or zero price)
is dropped. -/
theorem materiality_threshold (root : XmlElem) (r : Option Form4Record)
    (h : parse_form4 root = .ok r) :
    r.isSome ↔ (15000 : ℚ) ≤ dollar_value root := by
  simp only [parse_form4] at h
  split at h
  · exact absurd h (by simp)
  · split at h
    · exact absurd h (by simp)
    · split at h
      next hnd =>
        obtain rfl : (none : Option Form4Record) = r := by
          simpa using h
        simp only [dollar_value, hnd, Option.isSome_none]
        norm_num
      next nd hnd =>
        split at h
        · exact absurd h (by simp)
        next acc hproc =>
          obtain ⟨tot, dt⟩ := acc
          obtain ⟨htot, -⟩ := procTxs_ok _ _ _ _ _ hproc
          rw [zero_add] at htot
          split at h
          next hlt =>
            obtain rfl : (none : Option Form4Record) = r := by simpa using h
            simp only [dollar_value, hnd, Option.isSome_none, ← htot]
            exact iff_of_false (by simp) (not_le.mpr hlt)
          next hge =>
            injection h with h2
            subst h2
            simp only [dollar_value, hnd, ← htot]
            exact iff_of_true rfl (not_lt.mp hge)

/-- Witness for `materiality_threshold`: the $15,000 boundary document is
accepted, the zero-share document is dropped. -/
theorem materiality_threshold_witness :
    ((parse_form4 boundaryDoc).toOption.getD none).isSome
      ∧ (15000 : ℚ) ≤ dollar_value boundaryDoc
      ∧ ¬ ((15000 : ℚ) ≤ dollar_value zeroSharesDoc) := by
  have h1 := materiality_threshold boundaryDoc
    (some ⟨"ABCD", "Jane Doe", "Insider", 15000, "2024-03-01"⟩) (by decide)
  have h2 := materiality_threshold zeroSharesDoc none (by decide)
  refine ⟨by decide, h1.mp (by decide), fun hc => ?_⟩
  exact absurd (h2.mpr hc) (by decide)

/-! ### Rounding bounds -/

theorem floor_le_roundHalfEven (q : ℚ) : Int.floor q ≤ roundHalfEven q := by
  simp only [roundHalfEven]
  split
  · omega
  · split
    · omega
    · split <;> omega

theorem pyRound2_ge_15000 {q : ℚ} (h : (15000 : ℚ) ≤ q) :
    (15000 : ℚ) ≤ pyRound q 2 := by
  have h1 : (1500000 : ℤ) ≤ Int.floor (q * (10 : ℚ) ^ 2) := by
    rw [Int.le_floor]
    push_cast
    nlinarith
  have h2 : (1500000 : ℤ) ≤ roundHalfEven (q * (10 : ℚ) ^ 2) :=
    le_trans h1 (floor_le_roundHalfEven _)
  simp only [pyRound]
  rw [le_div_iff₀ (by norm_num : (0 : ℚ) < (10 : ℚ) ^ 2)]
  have h3 : ((1500000 : ℤ) : ℚ) ≤ (roundHalfEven (q * (10 : ℚ) ^ 2) : ℚ) := by
    exact_mod_cast h2
  have h4 : (15000 : ℚ) * (10 : ℚ) ^ 2 = ((1500000 : ℤ) : ℚ) := by norm_num
  linarith

/-- C10: Normalizer output invariant: whenever `parse_form4` returns a
record, its `total` field is the sum over code-`P` lines of
shares × price rounded to two decimal places, and is at least the
$15,000 materiality floor enforced inside the normalizer itself. -/
theorem normalizer_materiality_floor (root : XmlElem) (rec : Form4Record)
    (h : parse_form4 root = .ok (some rec)) :
    rec.total = pyRound (dollar_value root) 2 ∧ (15000 : ℚ) ≤ rec.total := by
  simp only [parse_form4] at h
  split at h
  · exact absurd h (by simp)
  · split at h
    · exact absurd h (by simp)
    · split at h
      · exact absurd h (by simp)
      next nd hnd =>
        split at h
        · exact absurd h (by simp)
        next acc hproc =>
          obtain ⟨tot, dt⟩ := acc
          obtain ⟨htot, -⟩ := procTxs_ok _ _ _ _ _ hproc
          rw [zero_add] at htot
          split at h
          · exact absurd h (by simp)
          next hge =>
            injection h with h2
            injection h2 with h3
            subst h3
            refine ⟨?_, pyRound2_ge_15000 (not_lt.mp hge)⟩
            simp only [dollar_value, hnd, ← htot]

/-- Witness for `normalizer_materiality_floor` at the $50,500 document. -/
theorem normalizer_materiality_floor_witness :
    (⟨"ABCD", "Jane Doe", "Insider", 50500, "2024-03-01"⟩ : Form4Record).total
        = pyRound (dollar_value highValueDoc) 2
    ∧ (15000 : ℚ) ≤ (⟨"ABCD", "Jane Doe", "Insider", 50500, "2024-03-01"⟩ : Form4Record).total :=
  normalizer_materiality_floor highValueDoc _ (by decide)

/-- C5 counterexample: a document whose maximal code-`P` date appears
first exposes the other (earlier) date: the record's date is the last
encountered, which is strictly below the maximum. -/
theorem latest_date_counterexample :
    parse_form4 twoDateDoc
        = .ok (some ⟨"ABCD", "Jane Doe", "Insider", 40000, "2024-04-01"⟩)
    ∧ pDates twoDateDoc = ["2024-05-02", "2024-04-01"]
    ∧ "2024-04-01".toList < "2024-05-02".toList :=
  ⟨by decide, by decide, by decide⟩

/-- C5 (amended): the transaction date exposed on a parsed record is the
date of the last code-`P` line item in document order, not the maximum. -/
theorem last_date_amended (root : XmlElem) (rec : Form4Record)
    (h : parse_form4 root = .ok (some rec)) :
    rec.date = ((pDates root).getLast?).getD "" := by
  simp only [parse_form4] at h
  split at h
  · exact absurd h (by simp)
  · split at h
    · exact absurd h (by simp)
    · split at h
      · exact absurd h (by simp)
      next nd hnd =>
        split at h
        · exact absurd h (by simp)
        next acc hproc =>
          obtain ⟨tot, dt⟩ := acc
          obtain ⟨-, hdt⟩ := procTxs_ok _ _ _ _ _ hproc
          split at h
          · exact absurd h (by simp)
          next hge =>
            injection h with h2
            injection h2 with h3
            subst h3
            simp only [pDates, hnd]
            exact hdt

/-- Witness for `last_date_amended` at the two-date document. -/
theorem last_date_amended_witness :
    (⟨"ABCD", "Jane Doe", "Insider", 40000, "2024-04-01"⟩ : Form4Record).date
        = ((pDates twoDateDoc).getLast?).getD "" :=
  last_date_amended twoDateDoc _ (by decide)

/-- C4 counterexample: a document lacking the `reportingOwner` section
makes `parse_form4` raise (`AttributeError`) instead of yielding
"no transaction". -/
theorem malformed_recovery_counterexample :
    parse_form4 noOwnerDoc = .error "AttributeError"
    ∧ parse_form4 noOwnerDoc ≠ .ok none :=
  ⟨by decide, by decide⟩

/-- C4 (amended): `parse_form4` yields "no transaction" when the
`nonDerivativeTable` section is absent, and a missing numeric `value`
element defaults to 0; but a missing `reportingOwner` section raises
`AttributeError`, an unparsable numeric string raises `ValueError`, and a
missing `issuer` section yields a record with an empty ticker rather than
"no transaction". -/
theorem malformed_recovery_amended :
    (∀ root, findChild root "reportingOwner" = none →
        parse_form4 root = .error "AttributeError")
    ∧ (∀ root owner oid, findChild root "reportingOwner" = some owner →
        findChild owner "reportingOwnerId" = some oid →
        findChild root "nonDerivativeTable" = none →
        parse_form4 root = .ok none)
    ∧ parse_form4 badNumberDoc = .error "ValueError"
    ∧ parse_form4 missingValueDoc = .ok none
    ∧ parse_form4 noIssuerDoc
        = .ok (some ⟨"", "Jane Doe", "Insider", 50000, "2024-03-01"⟩) := by
  refine ⟨?_, ?_, by decide, by decide, by decide⟩
  · intro root h
    simp only [parse_form4, h]
  · intro root owner oid h1 h2 h3
    simp only [parse_form4, h1, h2, h3]

/-- Witness for `malformed_recovery_amended`: the owner-less document
raises, the table-less document yields "no transaction". -/
theorem malformed_recovery_amended_witness :
    parse_form4 noOwnerDoc = .error "AttributeError"
    ∧ parse_form4 ownerOnlyDoc = .ok none :=
  ⟨malformed_recovery_amended.1 noOwnerDoc (by rfl),
   malformed_recovery_amended.2.1 ownerOnlyDoc ownerElem
     (node "reportingOwnerId" [leaf "rptOwnerName" "Jane Doe"])
     (by rfl) (by rfl) (by rfl)⟩

/-! ### Cluster partition lemmas -/

theorem membersOf_addHit (t : String) (g : List (String × List Form4Record))
    (r : Form4Record) :
    membersOf t (addHit g r) = membersOf t g ++ (if r.ticker = t then [r] else []) := by
  induction g with
  | nil => by_cases h : r.ticker = t <;> simp [addHit, membersOf, h]
  | cons p rest ih =>
    obtain ⟨pk, pv⟩ := p
    simp only [addHit]
    by_cases hp : pk = r.ticker
    · subst hp
      rw [if_pos rfl]
      by_cases ht : r.ticker = t
      · subst ht
        simp [membersOf]
      · simp [membersOf, ht]
    · rw [if_neg hp]
      by_cases ht : pk = t
      · have hrt : ¬ (r.ticker = t) := fun hh => hp (ht.trans hh.symm)
        simp [membersOf, ht, hrt]
      · simp [membersOf, ht, ih]

theorem keys_addHit (g : List (String × List Form4Record)) (r : Form4Record) :
    (addHit g r).map Prod.fst =
      if r.ticker ∈ g.map Prod.fst then g.map Prod.fst
      else g.map Prod.fst ++ [r.ticker] := by
  induction g with
  | nil => simp [addHit]
  | cons p rest ih =>
    obtain ⟨pk, pv⟩ := p
    simp only [addHit, List.map_cons]
    by_cases hp : pk = r.ticker
    · rw [if_pos hp]
      subst hp
      simp
    · rw [if_neg hp]
      simp only [List.map_cons, ih]
      by_cases hm : r.ticker ∈ rest.map Prod.fst
      · rw [if_pos hm, if_pos (List.mem_cons.mpr (Or.inr hm))]
      · have hc : r.ticker ∉ pk :: rest.map Prod.fst := by
          intro hmem
          rcases List.mem_cons.mp hmem with hh | hh
          · exact hp hh.symm
          · exact hm hh
        rw [if_neg hm, if_neg hc]
        simp

theorem membersOf_foldl (l : List Form4Record) :
    ∀ (g : List (String × List Form4Record)) (t : String),
      membersOf t (l.foldl addHit g)
        = membersOf t g ++ l.filter (fun r => r.ticker == t) := by
  induction l with
  | nil => intro g t; simp
  | cons r rest ih =>
    intro g t
    rw [List.foldl_cons, ih, membersOf_addHit]
    by_cases h : r.ticker = t
    · simp [List.filter_cons, h]
    · simp [List.filter_cons, h]

theorem keys_foldl (l : List Form4Record) :
    ∀ g : List (String × List Form4Record),
      (l.foldl addHit g).map Prod.fst
        = l.foldl (fun ks r => if r.ticker ∈ ks then ks else ks ++ [r.ticker])
            (g.map Prod.fst) := by
  induction l with
  | nil => intro g; rfl
  | cons r rest ih =>
    intro g
    rw [List.foldl_cons, List.foldl_cons, ih, keys_addHit]

theorem nodup_keys_foldl (l : List Form4Record) :
    ∀ g : List (String × List Form4Record),
      ((g.map Prod.fst).Nodup) → ((l.foldl addHit g).map Prod.fst).Nodup := by
  induction l with
  | nil => intro g h; exact h
  | cons r rest ih =>
    intro g hg
    rw [List.foldl_cons]
    apply ih
    rw [keys_addHit]
    split
    · exact hg
    next hnm =>
      simp only [List.nodup_append, List.nodup_cons, List.nodup_nil]
      exact ⟨hg, ⟨by simp, by simp⟩, by simpa using hnm⟩

/-- C6 counterexample: an empty-ticker transaction is grouped too — the
grouping produces a cluster keyed by the empty ticker, not one cluster
per distinct non-empty ticker only. -/
theorem cluster_nonempty_counterexample :
    groupHits [emptyTickerRec] = [("", [emptyTickerRec])]
    ∧ "" ∈ (groupHits [emptyTickerRec]).map Prod.fst :=
  ⟨by decide, by decide⟩

/-- C6 (amended): grouping by ticker is an order-stable partition over all
tickers, the empty ticker included: one cluster per distinct ticker in
first-seen order, members in document order, every filtered transaction
in exactly one cluster. -/
theorem cluster_partition_amended (hits : List Form4Record) :
    (groupHits hits).map Prod.fst = firstSeenTickers hits
    ∧ ((groupHits hits).map Prod.fst).Nodup
    ∧ ∀ t, membersOf t (groupHits hits) = hits.filter (fun r => r.ticker == t) := by
  refine ⟨keys_foldl hits [], nodup_keys_foldl hits [] (by simp), ?_⟩
  intro t
  simpa using membersOf_foldl hits [] t

end Scanner
